import Mathlib

/-!
Verification development for the IFS-Clipboard browser extension's cross-tab
synchronization core. The JavaScript sources are shallowly embedded: pure
decision logic (tab filters, trust matching, batch bookkeeping, history
management) becomes executable Lean functions; the asynchronous fan-out is
modelled by the ordered event traces and settle counters the callbacks produce.
-/

namespace IFSClipboard

/-- JS `hay.includes(needle)` on lists of characters: scan `hay` for `needle`
as a contiguous substring. -/
def containsSub : List Char → List Char → Bool
  | [], needle => needle.isEmpty
  | c :: t, needle => needle.isPrefixOf (c :: t) || containsSub t needle

/-- JS `s.includes(sub)`: substring containment on strings. -/
def strIncludes (s sub : String) : Bool :=
  containsSub s.toList sub.toList

theorem containsSub_iff (hay needle : List Char) :
    containsSub hay needle = true ↔ needle <:+: hay := by
  induction hay with
  | nil =>
    simp [containsSub, List.isEmpty_iff, List.infix_nil]
  | cons c t ih =>
    simp [containsSub, List.infix_cons_iff, ih]

theorem strIncludes_iff (s sub : String) :
    strIncludes s sub = true ↔ sub.toList <:+: s.toList := by
  simp [strIncludes, containsSub_iff]

/-- JS `s.startsWith(p)` on the characters of the strings. -/
def strStartsWith (s p : String) : Bool :=
  p.toList.isPrefixOf s.toList

/-- ASCII lowercasing of one character (hostnames and stored domains are
ASCII, so this matches JS `toLowerCase` on them). -/
def charLower (c : Char) : Char :=
  if c.toNat ≥ 65 && c.toNat ≤ 90 then Char.ofNat (c.toNat + 32) else c

/-- JS `s.toLowerCase()` on ASCII strings. -/
def strLower (s : String) : String :=
  String.mk (s.toList.map charLower)

/-- The trust check of the sync filters and of `pollLocalStorage`
(background service worker): `hostname.includes(domain) ||
domain.includes(hostname)`. -/
def isTrusted (hostname domain : String) : Bool :=
  strIncludes hostname domain || strIncludes domain hostname

/-- C2: for every tab hostname `h` and stored trusted domain `d`, the trust
check accepts the pair iff `h` contains `d` as a substring or `d` contains `h`
as a substring; in particular `uat.ifs.cloud` is trusted against `ifs.cloud`
and vice versa, while `example.com` is not trusted against `ifs.cloud`. -/
theorem trust_matching_symmetric_substring :
    (∀ h d : String, isTrusted h d = true ↔
      (d.toList <:+: h.toList ∨ h.toList <:+: d.toList)) ∧
    isTrusted ("uat.ifs.cloud") ("ifs.cloud") = true ∧
    isTrusted ("ifs.cloud") ("uat.ifs.cloud") = true ∧
    isTrusted ("example.com") ("ifs.cloud") = false := by
  refine ⟨fun h d => ?_, by decide, by decide, by decide⟩
  simp [isTrusted, strIncludes_iff]

/-- A browser tab as the sync code sees it: its id, its URL string, and
`new URL(tab.url).hostname` (`none` models a URL the `URL` constructor
rejects, which every filter treats as untrusted via its `catch`). -/
structure Tab where
  id : Nat
  url : String
  hostname : Option String
  deriving Repr, DecidableEq

/-- JS `tab.url.startsWith("http://") || tab.url.startsWith("https://")`. -/
def isHttpUrl (url : String) : Bool :=
  strStartsWith url ("http://") || strStartsWith url ("https://")

/-- The reserved sync-marker URL fragment. -/
def syncMarker : String :=
  "#ifs-clipboard-sync"

/-- JS `sourceTabId && tab.id === sourceTabId` (a null source id matches no tab). -/
def isSourceTab (sourceTabId : Option Nat) (tabId : Nat) : Bool :=
  match sourceTabId with
  | some s => tabId == s
  | none => false

/-- First draft of `syncClipboardToTrustedDomains`: the `filteredTabs`
predicate (scheme check, and marker exclusion only under background-tab
delivery). It does not look at the source tab id. -/
def filteredTabsFilter (useBackgroundTabs : Bool) (tab : Tab) : Bool :=
  isHttpUrl tab.url && (!useBackgroundTabs || !strIncludes tab.url syncMarker)

/-- First draft per-domain matching (`matchingTabs`): both the tab hostname
and the stored domain are lowercased before the bidirectional substring
check. -/
def matchingTabsForDomain (domain : String) (tabs : List Tab) : List Tab :=
  tabs.filter fun tab =>
    match tab.hostname with
    | none => false
    | some h => isTrusted (strLower h) (strLower domain)

/-- Second draft of `syncClipboardToTrustedDomains`: the `for (const domain
of allowedDomains)` loop body of the `trustedTabs` predicate. At the first
matching domain the tab is rejected when background delivery is in use and
its URL already carries the sync marker, and accepted otherwise. -/
def trustedLoop (hostname url : String) (useBackgroundTabs : Bool) :
    List String → Bool
  | [] => false
  | domain :: rest =>
    if isTrusted hostname domain then
      if useBackgroundTabs && strIncludes url syncMarker then false else true
    else trustedLoop hostname url useBackgroundTabs rest

/-- Second draft `trustedTabs` predicate: source-tab exclusion, scheme check,
hostname resolution, then the trusted-domain loop. -/
def trustedTabsFilter (sourceTabId : Option Nat) (useBackgroundTabs : Bool)
    (allowedDomains : List String) (tab : Tab) : Bool :=
  if isSourceTab sourceTabId tab.id then false
  else if !isHttpUrl tab.url then false
  else
    match tab.hostname with
    | none => false
    | some hostname => trustedLoop hostname tab.url useBackgroundTabs allowedDomains

/-- In `sidepanel.js` `syncViaBackgroundTab`: the trusted-tab loop there always
excludes tabs whose URL carries the sync marker (background delivery is the
only strategy of that function). -/
def sidepanelTrustedLoop (hostname url : String) : List String → Bool
  | [] => false
  | domain :: rest =>
    if isTrusted hostname domain then
      if strIncludes url syncMarker then false else true
    else sidepanelTrustedLoop hostname url rest

/-- The `sidepanel.js` `syncViaBackgroundTab` tab predicate. -/
def sidepanelTrustedFilter (allowedDomains : List String) (tab : Tab) : Bool :=
  if !isHttpUrl tab.url then false
  else
    match tab.hostname with
    | none => false
    | some hostname => sidepanelTrustedLoop hostname tab.url allowedDomains

/-- The `StorageUtils._performStorageSync` trusted-tab loop: bidirectional
substring match, no marker or source exclusion. -/
def storageUtilsLoop (hostname : String) : List String → Bool
  | [] => false
  | domain :: rest =>
    if isTrusted hostname domain then true else storageUtilsLoop hostname rest

/-- The `StorageUtils._performStorageSync` tab predicate (`trustedTabsFilter`
in `storage-utils`). -/
def storageUtilsTrustedFilter (allowedDomains : List String) (tab : Tab) : Bool :=
  if !isHttpUrl tab.url then false
  else
    match tab.hostname with
    | none => false
    | some hostname => storageUtilsLoop hostname allowedDomains

/-- Where a per-tab write lands: script injection into an existing tab, or a
freshly created disposable background tab (identified by the URL or domain
string it is opened at). -/
inductive WriteTarget where
  | existing (tabId : Nat)
  | background (location : String)
  deriving Repr, DecidableEq

/-- One write of the page store: the value stored under
`IFS-Aurena-CopyPasteRecordStorage` and, when non-null, under
`TcclClipboardMetadata`. -/
structure TabWrite where
  target : WriteTarget
  recordsValue : String
  metadataValue : Option String
  deriving Repr, DecidableEq

/-- From `updateTabStorage`: `const dataToStore = addSpace ? " " + data : data`. -/
def dataToStore (data : String) (addSpace : Bool) : String :=
  if addSpace then " " ++ data else data

/-- First draft per-domain dispatch (`domainTabsMap.forEach` body): with two
or more tabs the first gets the records verbatim and the second the
space-prefixed records; with one tab either a disposable background tab is
created (when background delivery is on and the tab is not the source) or
the single tab is written directly. -/
def domainDispatchWrites (domain records : String) (metadata : Option String)
    (useBackgroundTabs : Bool) (sourceTabId : Option Nat) :
    List Tab → List TabWrite
  | t0 :: t1 :: _ =>
    [⟨.existing t0.id, dataToStore records false, metadata⟩,
     ⟨.existing t1.id, dataToStore records true, metadata⟩]
  | [t0] =>
    if useBackgroundTabs && !isSourceTab sourceTabId t0.id then
      [⟨.background domain, records, metadata⟩]
    else
      [⟨.existing t0.id, dataToStore records false, metadata⟩]
  | [] => []

/-- A per-tab outcome as recorded in `syncResult.details`. -/
structure TabOutcome where
  tabId : Nat
  success : Bool
  deriving Repr, DecidableEq

/-- The aggregate result a sync call resolves with. -/
structure SyncResult where
  success : Bool
  message : String
  details : List TabOutcome
  deriving Repr, DecidableEq

/-- What one call to a sync orchestrator decides before any tab settles:
either a short-circuit result resolved immediately with no writes, or a
batch of dispatched writes together with the operation-counter total. -/
inductive SyncPlan where
  | shortCircuit (result : SyncResult)
  | dispatch (writes : List TabWrite) (total : Nat)
  deriving Repr, DecidableEq

/-- First draft `domainTabsMap`: one entry per allowed domain with a
non-empty matching tab list. -/
def domainTabsMapEntries (allowedDomains : List String) (filteredTabs : List Tab) :
    List (String × List Tab) :=
  (allowedDomains.map fun d => (d, matchingTabsForDomain d filteredTabs)).filter
    fun p => !p.2.isEmpty

/-- The counter `syncOperationsTotal`: each mapped domain contributes
`Math.min(2, matchingTabs.length)`. -/
def syncOperationsTotalOf (entries : List (String × List Tab)) : Nat :=
  (entries.map fun p => min 2 p.2.length).sum

/-- First draft `syncClipboardToTrustedDomains` up to the dispatch of its
per-tab operations: the two short-circuits and, otherwise, the writes and
the counter total of the batch. -/
def syncClipboardPlan (records : String) (metadata : Option String)
    (sourceTabId : Option Nat) (useBackgroundTabs : Bool)
    (allowedDomains : List String) (tabs : List Tab) : SyncPlan :=
  if allowedDomains.isEmpty then
    .shortCircuit ⟨false, "No trusted domains to sync to", []⟩
  else
    let filteredTabs := tabs.filter (filteredTabsFilter useBackgroundTabs)
    let entries := domainTabsMapEntries allowedDomains filteredTabs
    if entries.isEmpty then
      .shortCircuit ⟨false, "No trusted tabs to sync to", []⟩
    else
      .dispatch
        (entries.flatMap fun p =>
          domainDispatchWrites p.1 records metadata useBackgroundTabs sourceTabId p.2)
        (syncOperationsTotalOf entries)

/-- The function `StorageUtils._performStorageSync` up to its per-tab dispatch: both
short-circuits resolve with `success: true`, and otherwise every trusted tab
receives the records verbatim by direct injection. -/
def performStorageSyncPlan (jsonData : String) (metadata : Option String)
    (allowedDomains : List String) (tabs : List Tab) : SyncPlan :=
  if allowedDomains.isEmpty then
    .shortCircuit ⟨true, "No trusted domains to sync to", []⟩
  else
    let trustedTabs := tabs.filter (storageUtilsTrustedFilter allowedDomains)
    if trustedTabs.isEmpty then
      .shortCircuit ⟨true, "No matching tabs to sync to", []⟩
    else
      .dispatch
        (trustedTabs.map fun t => ⟨.existing t.id, jsonData, metadata⟩)
        trustedTabs.length

theorem trustedLoop_marker_excluded (hostname url : String)
    (hmark : strIncludes url syncMarker = true) :
    ∀ doms : List String, trustedLoop hostname url true doms = false := by
  intro doms
  induction doms with
  | nil => rfl
  | cons d rest ih => simp [trustedLoop, hmark, ih]

/-- C1 counterexample: in the first draft of `syncClipboardToTrustedDomains`
the `filteredTabs` predicate keeps the origin tab (id 5) even though
`sourceTabId = 5`, and the dispatched batch writes to that very tab; so the
sync-target list does contain the origin tab. -/
theorem source_tab_not_excluded_counterexample :
    filteredTabsFilter false ⟨5, "https://uat.ifs.cloud/page", some ("uat.ifs.cloud")⟩ = true ∧
    syncClipboardPlan ("[]") none (some 5) false [("ifs.cloud")]
        [⟨5, "https://uat.ifs.cloud/page", some ("uat.ifs.cloud")⟩]
      = .dispatch [⟨.existing 5, "[]", none⟩] 1 := by
  exact ⟨by decide, by decide⟩

/-- C1 amended: the second draft's `trustedTabs` predicate always excludes a
tab whose id equals a non-null source tab id; in both drafts a tab whose URL
carries the sync-marker fragment is excluded exactly when background-tab
delivery is in use — with direct injection such a tab can still be selected
(final conjunct), and the first draft never excludes the source tab. -/
theorem source_and_marker_exclusion_amended :
    (∀ (s : Nat) (useBk : Bool) (doms : List String) (tab : Tab),
      tab.id = s → trustedTabsFilter (some s) useBk doms tab = false) ∧
    (∀ tab : Tab, strIncludes tab.url syncMarker = true →
      filteredTabsFilter true tab = false) ∧
    (∀ (src : Option Nat) (doms : List String) (tab : Tab),
      strIncludes tab.url syncMarker = true →
      trustedTabsFilter src true doms tab = false) ∧
    trustedTabsFilter none false [("ifs.cloud")]
      ⟨7, "https://uat.ifs.cloud/x#ifs-clipboard-sync", some ("uat.ifs.cloud")⟩ = true := by
  refine ⟨?_, ?_, ?_, by decide⟩
  · intro s useBk doms tab hid
    simp [trustedTabsFilter, isSourceTab, hid]
  · intro tab hmark
    simp [filteredTabsFilter, hmark]
  · intro src doms tab hmark
    unfold trustedTabsFilter
    split
    · rfl
    · split
      · rfl
      · cases h : tab.hostname with
        | none => simp
        | some hostname => simp [trustedLoop_marker_excluded hostname tab.url hmark]

/-- C3: in every propagate batch of the first draft, for a trusted domain
with two or more matching open tabs, the first tab's page store receives the
serialized records verbatim and the second receives the same records with
exactly one leading space prepended. -/
theorem two_tab_domain_space_prefix (domain records : String)
    (metadata : Option String) (useBk : Bool) (src : Option Nat)
    (t0 t1 : Tab) (rest : List Tab) :
    domainDispatchWrites domain records metadata useBk src (t0 :: t1 :: rest)
      = [⟨.existing t0.id, records, metadata⟩,
         ⟨.existing t1.id, " " ++ records, metadata⟩] := by
  simp [domainDispatchWrites, dataToStore]

theorem domainDispatchWrites_length (domain records : String)
    (metadata : Option String) (useBk : Bool) (src : Option Nat)
    (tabs : List Tab) :
    (domainDispatchWrites domain records metadata useBk src tabs).length
      = min 2 tabs.length := by
  match tabs with
  | [] => rfl
  | [t0] =>
    simp only [domainDispatchWrites]
    split <;> rfl
  | t0 :: t1 :: rest =>
    simp [domainDispatchWrites]

theorem syncClipboardPlan_dispatch_total (records : String)
    (metadata : Option String) (src : Option Nat) (useBk : Bool)
    (doms : List String) (tabs : List Tab) (writes : List TabWrite) (total : Nat)
    (h : syncClipboardPlan records metadata src useBk doms tabs
      = .dispatch writes total) :
    writes.length = total := by
  simp only [syncClipboardPlan] at h
  split at h
  · exact absurd h (by simp)
  · split at h
    · exact absurd h (by simp)
    · rw [SyncPlan.dispatch.injEq] at h
      obtain ⟨hw, ht⟩ := h
      subst hw ht
      rw [List.flatMap]
      rw [List.length_flatten, syncOperationsTotalOf, List.map_map]
      congr 1
      apply List.map_congr_left
      intro p _
      exact domainDispatchWrites_length p.1 records metadata useBk src p.2

/-- C10: in every propagate batch of the first draft, at most two writes are
dispatched per trusted domain — with three or more matching tabs only the
first two enumerated tabs are written, the remaining matching tabs are never
written in that batch, and each domain contributes `min 2 (matching tabs)`
operations to the batch total, which equals the number of dispatched
writes. -/
theorem at_most_two_writes_per_domain :
    (∀ (domain records : String) (metadata : Option String) (useBk : Bool)
        (src : Option Nat) (tabs : List Tab),
      (domainDispatchWrites domain records metadata useBk src tabs).length
        = min 2 tabs.length) ∧
    (∀ (domain records : String) (metadata : Option String) (useBk : Bool)
        (src : Option Nat) (t0 t1 : Tab) (rest : List Tab),
      (domainDispatchWrites domain records metadata useBk src
          (t0 :: t1 :: rest)).map TabWrite.target
        = [WriteTarget.existing t0.id, WriteTarget.existing t1.id]) ∧
    (∀ (domain records : String) (metadata : Option String) (useBk : Bool)
        (src : Option Nat) (t0 t1 : Tab) (rest : List Tab),
      ((t0 :: t1 :: rest).map Tab.id).Nodup →
      ∀ t ∈ rest,
        ∀ w ∈ domainDispatchWrites domain records metadata useBk src
            (t0 :: t1 :: rest),
          w.target ≠ WriteTarget.existing t.id) ∧
    (∀ (records : String) (metadata : Option String) (src : Option Nat)
        (useBk : Bool) (doms : List String) (tabs : List Tab)
        (writes : List TabWrite) (total : Nat),
      syncClipboardPlan records metadata src useBk doms tabs
        = .dispatch writes total →
      writes.length = total) := by
  refine ⟨domainDispatchWrites_length, ?_, ?_, ?_⟩
  · intro domain records metadata useBk src t0 t1 rest
    simp [domainDispatchWrites]
  · intro domain records metadata useBk src t0 t1 rest hnodup t ht w hw
    simp only [domainDispatchWrites, dataToStore, List.mem_cons,
      List.not_mem_nil, or_false] at hw
    simp only [List.map_cons, List.nodup_cons, List.mem_cons, List.mem_map,
      not_or, not_exists, not_and] at hnodup
    obtain ⟨⟨hne01, h0r⟩, h1r, _⟩ := hnodup
    rcases hw with hw | hw <;> subst hw <;> intro hcontra <;>
      rw [WriteTarget.existing.injEq] at hcontra
    · exact h0r t ht hcontra.symm
    · exact h1r t ht hcontra.symm
  · exact syncClipboardPlan_dispatch_total

/-- C7 counterexample: with an empty trusted-domain set the first draft of
`syncClipboardToTrustedDomains` short-circuits with `success: false` (the
initial value is never overwritten on that path), not `success: true` as the
claim states. -/
theorem empty_domains_short_circuit_counterexample :
    ∃ r, syncClipboardPlan ("[]") none none false [] [] = .shortCircuit r ∧
      r.success = false ∧ r.message = "No trusted domains to sync to" :=
  ⟨_, rfl, rfl, rfl⟩

/-- C7 amended: with no trusted domains or no matching tabs, propagate
dispatches no tab writes and resolves normally with a no-target message; in
`StorageUtils._performStorageSync` that trivial result carries
`success: true`, but in `syncClipboardToTrustedDomains` it carries
`success: false`. -/
theorem no_target_short_circuit_amended :
    (∀ (records : String) (metadata : Option String) (src : Option Nat)
        (useBk : Bool) (tabs : List Tab),
      syncClipboardPlan records metadata src useBk [] tabs
        = .shortCircuit ⟨false, "No trusted domains to sync to", []⟩) ∧
    (∀ (records : String) (metadata : Option String) (src : Option Nat)
        (useBk : Bool) (doms : List String) (tabs : List Tab),
      doms ≠ [] →
      domainTabsMapEntries doms (tabs.filter (filteredTabsFilter useBk)) = [] →
      syncClipboardPlan records metadata src useBk doms tabs
        = .shortCircuit ⟨false, "No trusted tabs to sync to", []⟩) ∧
    (∀ (jsonData : String) (metadata : Option String) (tabs : List Tab),
      performStorageSyncPlan jsonData metadata [] tabs
        = .shortCircuit ⟨true, "No trusted domains to sync to", []⟩) ∧
    (∀ (jsonData : String) (metadata : Option String) (doms : List String)
        (tabs : List Tab),
      doms ≠ [] →
      tabs.filter (storageUtilsTrustedFilter doms) = [] →
      performStorageSyncPlan jsonData metadata doms tabs
        = .shortCircuit ⟨true, "No matching tabs to sync to", []⟩) := by
  refine ⟨?_, ?_, ?_, ?_⟩
  · intro records metadata src useBk tabs
    simp [syncClipboardPlan]
  · intro records metadata src useBk doms tabs hdoms hentries
    simp [syncClipboardPlan, hdoms, hentries]
  · intro jsonData metadata tabs
    simp [performStorageSyncPlan]
  · intro jsonData metadata doms tabs hdoms htabs
    simp [performStorageSyncPlan, hdoms, htabs]

/-- First draft `finalizeSyncOperation`: `syncResult.success =
syncOperationsSuccessful > 0` with the summary message; the successful
counter equals the number of successful entries of `syncResult.details`
(every callback increments both together). -/
def finalizeSyncOperation (details : List TabOutcome) (total domains : Nat) :
    SyncResult :=
  { success := 0 < details.countP fun o => o.success
    message := "Synced to " ++ toString (details.countP fun o => o.success)
      ++ "/" ++ toString total ++ " operations across " ++ toString domains
      ++ " domains"
    details := details }

/-- The `StorageUtils._performStorageSync` completion: once every per-tab
callback has run, the promise is resolved (never rejected on this path) with
`success: successful > 0` and the collected per-tab results. -/
def performStorageSyncAggregate (outcomes : List TabOutcome) :
    Except String SyncResult :=
  .ok
    { success := 0 < outcomes.countP fun o => o.success
      message := "Synced to " ++ toString (outcomes.countP fun o => o.success)
        ++ "/" ++ toString outcomes.length ++ " tabs"
      details := outcomes }

/-- C4: the aggregate result's `success` field is true iff at least one
per-tab write succeeded, and even when every tab fails the call resolves
normally (no rejection) with `success: false` and one detail entry per
tab. -/
theorem aggregate_success_iff_any_tab_succeeded :
    (∀ (details : List TabOutcome) (total domains : Nat),
      (finalizeSyncOperation details total domains).success = true ↔
        ∃ o ∈ details, o.success = true) ∧
    (∀ outcomes : List TabOutcome,
      ∃ r, performStorageSyncAggregate outcomes = .ok r ∧
        (r.success = true ↔ ∃ o ∈ outcomes, o.success = true) ∧
        r.details = outcomes) ∧
    (∀ outcomes : List TabOutcome, (∀ o ∈ outcomes, o.success = false) →
      ∃ r, performStorageSyncAggregate outcomes = .ok r ∧
        r.success = false ∧ r.details = outcomes) := by
  have hfin : ∀ (details : List TabOutcome) (total domains : Nat),
      (finalizeSyncOperation details total domains).success = true ↔
        ∃ o ∈ details, o.success = true := by
    intro details total domains
    simp [finalizeSyncOperation, List.countP_pos_iff]
  refine ⟨hfin, fun outcomes => ⟨_, rfl, ?_, rfl⟩, fun outcomes hall => ⟨_, rfl, ?_, rfl⟩⟩
  · simp [performStorageSyncAggregate, List.countP_pos_iff]
  · simpa [performStorageSyncAggregate, List.countP_pos_iff] using hall

/-- The counters of one sync batch together with how many times the
completion handler (`finalizeSyncOperation`) has been invoked. -/
structure BatchState where
  total : Nat
  completed : Nat
  succeeded : Nat
  finalized : Nat
  deriving Repr, DecidableEq

/-- One per-tab callback of the second draft: `syncOperationsCompleted++`,
count the success, and call the completion handler exactly when
`syncOperationsCompleted === syncOperationsTotal`. -/
def settleOne (s : BatchState) (outcome : Bool) : BatchState :=
  { s with
    completed := s.completed + 1
    succeeded := s.succeeded + (if outcome then 1 else 0)
    finalized := s.finalized + (if s.completed + 1 = s.total then 1 else 0) }

/-- A batch of `total` dispatched operations whose per-tab outcomes settle in
the order given by `outcomes`. -/
def runBatch (total : Nat) (outcomes : List Bool) : BatchState :=
  outcomes.foldl settleOne ⟨total, 0, 0, 0⟩

theorem foldl_settleOne_total (l : List Bool) (s : BatchState) :
    (l.foldl settleOne s).total = s.total := by
  induction l generalizing s with
  | nil => rfl
  | cons b t ih => simp [List.foldl_cons, ih, settleOne]

theorem foldl_settleOne_completed (l : List Bool) (s : BatchState) :
    (l.foldl settleOne s).completed = s.completed + l.length := by
  induction l generalizing s with
  | nil => simp
  | cons b t ih =>
    simp [List.foldl_cons, ih, settleOne]
    omega

theorem foldl_settleOne_finalized (l : List Bool) (s : BatchState) :
    (l.foldl settleOne s).finalized = s.finalized +
      (if s.completed < s.total ∧ s.total ≤ s.completed + l.length then 1 else 0) := by
  induction l generalizing s with
  | nil => simp
  | cons b t ih =>
    rw [List.foldl_cons, ih]
    simp only [settleOne, List.length_cons]
    split_ifs <;> omega

theorem runBatch_closed (total : Nat) (l : List Bool) :
    (runBatch total l).completed = l.length ∧
    (runBatch total l).finalized =
      (if 0 < total ∧ total ≤ l.length then 1 else 0) := by
  constructor
  · rw [runBatch, foldl_settleOne_completed]
    simp
  · rw [runBatch, foldl_settleOne_finalized]
    simp

/-- C5: for every batch, the completed counter is monotonically
non-decreasing along any settle order, the completion handler fires exactly
once, exactly when `completed` reaches `total` (failed writes counted), and
the counters are independent of the order in which the per-tab operations
settle. -/
theorem batch_completion_invariant (total : Nat) (outcomes : List Bool)
    (hlen : outcomes.length = total) (hpos : 1 ≤ total) :
    (∀ k₁ k₂ : Nat, k₁ ≤ k₂ →
      (runBatch total (outcomes.take k₁)).completed ≤
        (runBatch total (outcomes.take k₂)).completed) ∧
    (∀ k ≤ total,
      (runBatch total (outcomes.take k)).finalized =
        if k = total then 1 else 0) ∧
    (runBatch total outcomes).finalized = 1 ∧
    (∀ outcomes' : List Bool, outcomes.Perm outcomes' →
      (runBatch total outcomes').completed = total ∧
      (runBatch total outcomes').finalized = 1) := by
  refine ⟨?_, ?_, ?_, ?_⟩
  · intro k₁ k₂ hk
    rw [(runBatch_closed total _).1, (runBatch_closed total _).1]
    simp only [List.length_take]
    omega
  · intro k hk
    rw [(runBatch_closed total _).2]
    simp only [List.length_take]
    split_ifs <;> omega
  · rw [(runBatch_closed total _).2]
    simp only [hlen]
    split_ifs <;> omega
  · intro outcomes' hperm
    have hlen' : outcomes'.length = total := by
      rw [← hperm.length_eq, hlen]
    refine ⟨?_, ?_⟩
    · rw [(runBatch_closed total _).1, hlen']
    · rw [(runBatch_closed total _).2]
      simp only [hlen']
      split_ifs <;> omega

/-- Witness for C5 at a concrete batch of two operations, one failed: the
handler fires exactly once at the second settle. -/
theorem batch_completion_invariant_witness :
    (runBatch 2 [true, false]).finalized = 1 :=
  (batch_completion_invariant 2 [true, false] rfl (by omega)).2.2.1

/-- Observable actions of the side panel's polling tick and of
`syncViaBackgroundTab`. -/
inductive PanelEvent where
  | storageRead
  | renderUI
  | startBackgroundSync (records : String) (metadata : Option String)
  | setSyncFlag (b : Bool)
  | createBackgroundTab (url : String)
  | backgroundWrite (w : TabWrite)
  deriving Repr, DecidableEq

/-- The side panel's mutable state relevant to change detection: the
`syncInProgress` flag and `JSON.stringify(currentClipboardData)` (with
`none` for the initial `null`). -/
structure PanelState where
  syncInProgress : Bool
  currentClipboardData : Option String
  deriving Repr, DecidableEq

/-- Model of `JSON.stringify` of the current data, `"null"` for `null`; the stored
records string is its own canonical serialization (it was produced by
`JSON.stringify` upstream), so `JSON.stringify(JSON.parse(records)) =
records`. -/
def jsonStringifyOpt : Option String → String
  | none => "null"
  | some s => s

/-- From `sidepanel.js`, `checkLocalStorage`: one polling tick. With the flag set
it returns at once; otherwise it reads the extension store (`storedRecords =
none` models a missing or falsy value), compares serializations, and on a
change re-renders and starts `syncViaBackgroundTab`. -/
def checkLocalStorageTick (st : PanelState)
    (storedRecords storedMetadata : Option String) :
    PanelState × List PanelEvent :=
  if st.syncInProgress then (st, [])
  else
    match storedRecords with
    | some records =>
      if jsonStringifyOpt st.currentClipboardData ≠ records then
        ({ st with currentClipboardData := some records },
         [.storageRead, .renderUI, .startBackgroundSync records storedMetadata])
      else (st, [.storageRead])
    | none =>
      if st.currentClipboardData ≠ none then
        ({ st with currentClipboardData := none }, [.storageRead, .renderUI])
      else (st, [.storageRead])

/-- The dispatch phase of `syncViaBackgroundTab`: its ordered event trace and
the batch total. The flag is set synchronously on entry; the two
short-circuits reset it having dispatched nothing; otherwise one disposable
tab is created per trusted tab at `tab.url + "/#ifs-clipboard-sync"` and the
space-prefixed records are written into it. -/
structure DispatchTrace where
  events : List PanelEvent
  total : Nat
  deriving Repr, DecidableEq

/-- Per trusted tab: create the disposable tab at
`tab.url + "/#ifs-clipboard-sync"` and write the space-prefixed records (and
the metadata when non-null) into its page store. -/
def backgroundPairFor (records : String) (metadata : Option String)
    (t : Tab) : List PanelEvent :=
  [.createBackgroundTab (t.url ++ "/" ++ syncMarker),
   .backgroundWrite ⟨.background (t.url ++ "/" ++ syncMarker),
     " " ++ records, metadata⟩]

def syncViaBackgroundTabDispatch (records : String) (metadata : Option String)
    (allowedDomains : List String) (tabs : List Tab) : DispatchTrace :=
  if allowedDomains.isEmpty then
    ⟨[.setSyncFlag true, .setSyncFlag false], 0⟩
  else
    let trustedTabs := tabs.filter (sidepanelTrustedFilter allowedDomains)
    if trustedTabs.isEmpty then
      ⟨[.setSyncFlag true, .setSyncFlag false], 0⟩
    else
      ⟨.setSyncFlag true :: trustedTabs.flatMap (backgroundPairFor records metadata),
       trustedTabs.length⟩

theorem syncViaBackgroundTabDispatch_cases (records : String)
    (metadata : Option String) (doms : List String) (tabs : List Tab) :
    syncViaBackgroundTabDispatch records metadata doms tabs
      = ⟨[.setSyncFlag true, .setSyncFlag false], 0⟩ ∨
    (∃ ts : List Tab, ts = tabs.filter (sidepanelTrustedFilter doms) ∧
      ts ≠ [] ∧
      syncViaBackgroundTabDispatch records metadata doms tabs
        = ⟨.setSyncFlag true :: ts.flatMap (backgroundPairFor records metadata),
           ts.length⟩) := by
  by_cases h1 : doms.isEmpty
  · left
    simp [syncViaBackgroundTabDispatch, h1]
  · by_cases h2 : (tabs.filter (sidepanelTrustedFilter doms)).isEmpty
    · left
      simp [syncViaBackgroundTabDispatch, h1, h2]
    · right
      refine ⟨_, rfl, by simpa [List.isEmpty_iff] using h2, ?_⟩
      simp [syncViaBackgroundTabDispatch, h1, h2]

/-- The `syncInProgress` flag after `settled` of the batch's `total` per-tab
completions: each completion callback increments the counter and clears the
flag exactly when `syncOperationsCompleted === syncOperationsTotal`. -/
def syncFlagAfterSettles (total : Nat) : Nat → Bool
  | 0 => true
  | k + 1 => if k + 1 = total then false else syncFlagAfterSettles total k

/-- C6: the in-flight flag is set before any tab write of a dispatched batch
and, inside the dispatch phase, is cleared only on a short-circuit that
dispatched nothing; after dispatch it stays set until the last per-tab
completion and is cleared there; and while the flag is set a polling tick
returns without reading or comparing the stored payload and without starting
a new propagation — so no tick can observe the extension's own in-flight
writes and re-trigger a sync. -/
theorem sync_in_flight_flag_guard :
    (∀ (st : PanelState) (stored meta : Option String),
      st.syncInProgress = true → checkLocalStorageTick st stored meta = (st, [])) ∧
    (∀ (records : String) (metadata : Option String) (doms : List String)
        (tabs : List Tab),
      ∃ rest, (syncViaBackgroundTabDispatch records metadata doms tabs).events
        = PanelEvent.setSyncFlag true :: rest) ∧
    (∀ (records : String) (metadata : Option String) (doms : List String)
        (tabs : List Tab),
      PanelEvent.setSyncFlag false ∈
        (syncViaBackgroundTabDispatch records metadata doms tabs).events →
      (∀ w, PanelEvent.backgroundWrite w ∉
        (syncViaBackgroundTabDispatch records metadata doms tabs).events) ∧
      (syncViaBackgroundTabDispatch records metadata doms tabs).total = 0) ∧
    (∀ total k : Nat, k < total → syncFlagAfterSettles total k = true) ∧
    (∀ total : Nat, 1 ≤ total → syncFlagAfterSettles total total = false) := by
  refine ⟨?_, ?_, ?_, ?_, ?_⟩
  · intro st stored meta hflag
    simp [checkLocalStorageTick, hflag]
  · intro records metadata doms tabs
    rcases syncViaBackgroundTabDispatch_cases records metadata doms tabs with
      h | ⟨ts, _, _, h⟩ <;> rw [h] <;> exact ⟨_, rfl⟩
  · intro records metadata doms tabs hmem
    rcases syncViaBackgroundTabDispatch_cases records metadata doms tabs with
      h | ⟨ts, _, _, h⟩
    · rw [h]
      simp
    · exfalso
      rw [h] at hmem
      simp only [List.mem_cons, List.mem_flatMap, backgroundPairFor] at hmem
      rcases hmem with hc | ⟨t, _, hc⟩ <;> simp at hc
  · intro total k hk
    induction k with
    | zero => rfl
    | succ n ih =>
      have hne : n + 1 ≠ total := by omega
      simp [syncFlagAfterSettles, hne]
      exact ih (by omega)
  · intro total hpos
    match total, hpos with
    | n + 1, _ => simp [syncFlagAfterSettles]

/-- A clipboard payload as the history manager sees it: an array of row
objects, each row a list of string-valued fields. -/
def Records : Type := List (List (String × String))

instance : DecidableEq Records := by
  unfold Records
  infer_instance

/-- JSON string escaping of the quote and backslash characters. -/
def jsonEscape (s : String) : String :=
  s.toList.foldr
    (fun c acc =>
      if c = '"' then "\\\"" ++ acc
      else if c = '\\' then "\\\\" ++ acc
      else String.singleton c ++ acc)
    ""

def jsonStr (s : String) : String :=
  "\"" ++ jsonEscape s ++ "\""

def jsonField (p : String × String) : String :=
  jsonStr p.1 ++ ":" ++ jsonStr p.2

def jsonRow (r : List (String × String)) : String :=
  "\x7b" ++ String.intercalate "," (r.map jsonField) ++ "\x7d"

/-- Model of `JSON.stringify(records)` for string-valued flat records. -/
def jsonStringifyRecords (rs : Records) : String :=
  "[" ++ (String.intercalate "," (rs.map jsonRow) ++ "]")

/-- The summary label of a history entry: the row count of the previous
payload, or the empty-records label (`prevRecordsObj` is an array, hence
always truthy, so only the length test matters). -/
def summaryOf (rs : Records) : String :=
  if 0 < rs.length then toString rs.length ++ " record(s)"
  else "Empty records"

/-- One history entry: its timestamp (`new Date().toLocaleString()` modelled
as a counter), its summary label, and the snapshot of the previous payload
(`JSON.parse(this.previousRecords)`). -/
structure HistoryEntry where
  timestamp : Nat
  summary : String
  data : Records
  deriving DecidableEq

def MAX_HISTORY_ITEMS : Nat := 10

/-- The history manager's state: `previousRecords` holds the JSON string of
the last-seen payload, modelled by the payload it serializes (the string is
recovered as `jsonStringifyRecords`; `initHistory`'s `"[]"` is `some []`); and
the bounded most-recent-first log. -/
structure HistoryState where
  previousRecords : Option Records
  historyItems : List HistoryEntry
  deriving DecidableEq

/-- From `HistoryManager.updateHistory` (first draft): stringify the incoming
records, and when they differ from the last-seen string, prepend an entry
snapshotting the previous payload and drop the oldest entry once the log
exceeds `MAX_HISTORY_ITEMS`; always update `previousRecords` last. -/
def updateHistory (now : Nat) (records : Records) (st : HistoryState) :
    HistoryState :=
  let recordsString := jsonStringifyRecords records
  match st.previousRecords with
  | some prev =>
    if recordsString ≠ jsonStringifyRecords prev then
      let items := HistoryEntry.mk now (summaryOf prev) prev :: st.historyItems
      let items := if MAX_HISTORY_ITEMS < items.length then items.dropLast else items
      { previousRecords := some records, historyItems := items }
    else { st with previousRecords := some records }
  | none => { st with previousRecords := some records }

/-- Fold `updateHistory` over a timestamped sequence of payload updates. -/
def runUpdates (st : HistoryState) : List (Nat × Records) → HistoryState
  | [] => st
  | (t, r) :: rest => runUpdates (updateHistory t r st) rest

/-- The payload of the `n`-th change of the 15-change scenario (`0` is the
initial empty payload). -/
def scenarioPayload : Nat → Records
  | 0 => []
  | n + 1 => [[("id", toString (n + 1))]]

/-- Fifteen successive distinct payload changes at timestamps 1..15,
starting from the freshly initialized history (`previousRecords = "[]"`). -/
def scenarioFinal : HistoryState :=
  runUpdates ⟨some [], []⟩
    ((List.range 15).map fun i => (i + 1, scenarioPayload (i + 1)))

/-- C8: the history log never exceeds 10 entries; each detected change
prepends a snapshot of the previous payload labelled with its row count (or
the empty-records label, carried inside `summaryOf`); and after 15 distinct
changes exactly 10 entries remain, most recent first, with the 5 oldest
(timestamps 1..5) evicted. -/
theorem history_bound_and_eviction :
    (∀ (now : Nat) (records : Records) (st : HistoryState),
      st.historyItems.length ≤ MAX_HISTORY_ITEMS →
      (updateHistory now records st).historyItems.length ≤ MAX_HISTORY_ITEMS) ∧
    (∀ (now : Nat) (records : Records) (st : HistoryState) (prev : Records),
      st.previousRecords = some prev →
      jsonStringifyRecords records ≠ jsonStringifyRecords prev →
      ∃ rest, (updateHistory now records st).historyItems
        = HistoryEntry.mk now (summaryOf prev) prev :: rest) ∧
    (scenarioFinal.historyItems.length = 10 ∧
     scenarioFinal.historyItems.map HistoryEntry.timestamp
       = [15, 14, 13, 12, 11, 10, 9, 8, 7, 6] ∧
     scenarioFinal.historyItems.map HistoryEntry.data
       = [scenarioPayload 14, scenarioPayload 13, scenarioPayload 12,
          scenarioPayload 11, scenarioPayload 10, scenarioPayload 9,
          scenarioPayload 8, scenarioPayload 7, scenarioPayload 6,
          scenarioPayload 5] ∧
     ∀ e ∈ scenarioFinal.historyItems, 5 < e.timestamp) := by
  refine ⟨?_, ?_, by decide, by decide, by decide, by decide⟩
  · intro now records st hlen
    simp only [updateHistory]
    split
    · split
      · split
        · simp only [List.length_dropLast, List.length_cons]
          omega
        · simp only [List.length_cons] at *
          omega
      · simpa using hlen
    · simpa using hlen
  · intro now records st prev hprev hne
    simp only [updateHistory, hprev]
    rw [if_pos hne]
    split
    · rename_i hgt
      cases hitems : st.historyItems with
      | nil =>
        rw [hitems] at hgt
        simp [MAX_HISTORY_ITEMS] at hgt
      | cons e rest =>
        rw [List.dropLast_cons_of_ne_nil (by simp [hitems])]
        exact ⟨_, rfl⟩
    · exact ⟨_, rfl⟩

/-- What the second draft of `HistoryManager.restoreFromHistory` writes:
the extension-store value under `IFS-Aurena-CopyPasteRecordStorage`, the
value written into the active tab's page store, and the payload handed to
the render callback. -/
structure RestoreOutcome where
  extStoreValue : String
  activeTabValue : String
  rendered : Records
  deriving DecidableEq

/-- Second draft `HistoryManager.restoreFromHistory`: store
`JSON.stringify(historyData)` under the records key in the extension store,
write the same string into the active tab's page store, and render the
restored data. -/
def restoreFromHistory (historyData : Records) : RestoreOutcome :=
  { extStoreValue := jsonStringifyRecords historyData
    activeTabValue := jsonStringifyRecords historyData
    rendered := historyData }

/-- A `localStorageUpdated` message as `watchStorageChanges` sends it. -/
structure PageMessage where
  data : String
  metadata : Option String
  senderTabId : Option Nat
  deriving DecidableEq

/-- From `watchStorageChanges` (background service worker): the overridden
`localStorage.setItem` notifies the extension exactly when the written key
is the records key, carrying the written value and the sender tab. -/
def watcherMessageFor (key value : String) (metadata : Option String)
    (tabId : Nat) : Option PageMessage :=
  if key = "IFS-Aurena-CopyPasteRecordStorage" then
    some ⟨value, metadata, some tabId⟩
  else none

/-- The background service worker's `localStorageUpdated` handling: store
the message data in the extension store and fan out through
`syncToAllTrustedTabs`, i.e. `syncClipboardToTrustedDomains` with direct
injection and the sender tab as source. -/
def onLocalStorageUpdated (msg : PageMessage) (allowedDomains : List String)
    (tabs : List Tab) : String × SyncPlan :=
  (msg.data,
   syncClipboardPlan msg.data msg.metadata msg.senderTabId false allowedDomains tabs)

/-- Remove the space-prefix discriminator from a per-tab write value, when
present. -/
def stripSyncSpace (s : String) : String :=
  match s.toList with
  | c :: rest => if c = ' ' then String.mk rest else s
  | [] => s

theorem toList_append_one (a s : String) :
    (a ++ s).toList = a.toList ++ s.toList := by
  simp [String.toList]

theorem stripSyncSpace_space_append (s : String) :
    stripSyncSpace (" " ++ s) = s := by
  have h : (" " ++ s).toList = ' ' :: s.toList := by
    rw [toList_append_one]
    rfl
  rw [stripSyncSpace, h]
  simp [String.toList]

theorem stripSyncSpace_jsonStringify (rs : Records) :
    stripSyncSpace (jsonStringifyRecords rs) = jsonStringifyRecords rs := by
  have h : (jsonStringifyRecords rs).toList
      = '[' :: (String.intercalate "," (rs.map jsonRow) ++ "]").toList := by
    rw [jsonStringifyRecords, toList_append_one]
    rfl
  rw [stripSyncSpace, h]
  simp

theorem domainDispatchWrites_content (domain records : String)
    (metadata : Option String) (useBk : Bool) (src : Option Nat)
    (tabs : List Tab) :
    ∀ w ∈ domainDispatchWrites domain records metadata useBk src tabs,
      w.recordsValue = records ∨ w.recordsValue = " " ++ records := by
  intro w hw
  match tabs with
  | [] => simp [domainDispatchWrites] at hw
  | [t0] =>
    simp only [domainDispatchWrites] at hw
    split at hw <;> simp at hw <;> subst hw <;> simp [dataToStore]
  | t0 :: t1 :: rest =>
    simp only [domainDispatchWrites, List.mem_cons, List.not_mem_nil,
      or_false] at hw
    rcases hw with hw | hw <;> subst hw <;> simp [dataToStore]

theorem syncClipboardPlan_write_content (records : String)
    (metadata : Option String) (src : Option Nat) (useBk : Bool)
    (doms : List String) (tabs : List Tab) (writes : List TabWrite)
    (total : Nat)
    (h : syncClipboardPlan records metadata src useBk doms tabs
      = .dispatch writes total) :
    ∀ w ∈ writes, w.recordsValue = records ∨ w.recordsValue = " " ++ records := by
  intro w hw
  simp only [syncClipboardPlan] at h
  split at h
  · exact absurd h (by simp)
  · split at h
    · exact absurd h (by simp)
    · rw [SyncPlan.dispatch.injEq] at h
      obtain ⟨hwr, -⟩ := h
      subst hwr
      rw [List.mem_flatMap] at hw
      obtain ⟨p, -, hwp⟩ := hw
      exact domainDispatchWrites_content p.1 records metadata useBk src p.2 w hwp

/-- C9: after payloads `P1` then `P2` (`P1 ≠ P2`), restoring the history
entry holding `P1` makes the extension-store value under
`IFS-Aurena-CopyPasteRecordStorage` equal to the serialization of `P1`
again, and — through the page-store write that the installed watcher echoes
back as `localStorageUpdated` — triggers a propagate batch whose every
per-tab write content, once the space-prefix discriminator is ignored,
equals the serialization of `P1`. -/
theorem restore_round_trip (P1 P2 : Records) (doms : List String)
    (tabs : List Tab) (activeTabId : Nat)
    (hne : jsonStringifyRecords P1 ≠ jsonStringifyRecords P2) :
    (restoreFromHistory P1).extStoreValue = jsonStringifyRecords P1 ∧
    ∀ msg : PageMessage,
      watcherMessageFor ("IFS-Aurena-CopyPasteRecordStorage")
          ((restoreFromHistory P1).activeTabValue) none activeTabId
        = some msg →
      (onLocalStorageUpdated msg doms tabs).1 = jsonStringifyRecords P1 ∧
      ∀ (writes : List TabWrite) (total : Nat),
        (onLocalStorageUpdated msg doms tabs).2 = .dispatch writes total →
        ∀ w ∈ writes, stripSyncSpace w.recordsValue = jsonStringifyRecords P1 := by
  refine ⟨rfl, ?_⟩
  intro msg hmsg
  simp [watcherMessageFor] at hmsg
  subst hmsg
  refine ⟨rfl, ?_⟩
  intro writes total hplan w hw
  rcases syncClipboardPlan_write_content _ _ _ _ _ _ _ _ hplan w hw with hc | hc
  · rw [hc]
    exact stripSyncSpace_jsonStringify P1
  · rw [hc, stripSyncSpace_space_append]
    rfl

/-- Witness for C9 at the concrete payloads `P1 = [{"id":"1"}]`,
`P2 = []`. -/
theorem restore_round_trip_witness :
    jsonStringifyRecords ([[("id", "1")]]) ≠ jsonStringifyRecords ([] : Records) ∧
    (restoreFromHistory ([[("id", "1")]])).extStoreValue
      = jsonStringifyRecords ([[("id", "1")]]) :=
  ⟨by decide,
   (restore_round_trip ([[("id", "1")]]) [] [("ifs.cloud")] [] 1 (by decide)).1⟩

end IFSClipboard
